import Mathlib

/-!
Shallow embedding of the ewq math library (2D/3D/4D vectors, complex
numbers, quaternions, a 3x4 matrix and axis-aligned bounding boxes),
together with theorems settling the specification claims.

The Rust code is generic over a floating-point scalar; the embedding is
generic over a linearly ordered field, with the square-root and
trigonometric operations modelled over the real numbers.
-/

namespace Ewq

/-- 2D Euclidian vector with X and Y components (src/vec/d2.rs). -/
@[ext]
structure Vec2 (F : Type) where
  x : F
  y : F
deriving DecidableEq

/-- 3D Euclidian vector with X, Y and Z components (src/vec/d3.rs). -/
@[ext]
structure Vec3 (F : Type) where
  x : F
  y : F
  z : F
deriving DecidableEq

/-- 4D Euclidian vector with X, Y, Z and W components (src/vec/d4.rs). -/
@[ext]
structure Vec4 (F : Type) where
  x : F
  y : F
  z : F
  w : F
deriving DecidableEq

/-- Complex number with real and imaginary parts (src/complex.rs). -/
@[ext]
structure Complex (F : Type) where
  real : F
  imag : F
deriving DecidableEq

/-- Quaternion with vector part v and scalar part w (src/quat/rot.rs). -/
@[ext]
structure Quat (F : Type) where
  v : Vec3 F
  w : F
deriving DecidableEq

variable {F : Type} [LinearOrderedField F]

namespace Vec2

/-- Componentwise addition (impl Add for Vec2). -/
def add (a b : Vec2 F) : Vec2 F := ⟨a.x + b.x, a.y + b.y⟩

/-- In-place addition modelled as a pure state transformer (impl AddAssign for Vec2). -/
def add_assign (a b : Vec2 F) : Vec2 F := ⟨a.x + b.x, a.y + b.y⟩

/-- Componentwise subtraction (impl Sub for Vec2). -/
def sub (a b : Vec2 F) : Vec2 F := ⟨a.x - b.x, a.y - b.y⟩

/-- In-place subtraction (impl SubAssign for Vec2). -/
def sub_assign (a b : Vec2 F) : Vec2 F := ⟨a.x - b.x, a.y - b.y⟩

/-- Scalar multiplication (impl Mul of F for Vec2). -/
def mul (a : Vec2 F) (rhs : F) : Vec2 F := ⟨a.x * rhs, a.y * rhs⟩

/-- In-place scalar multiplication (impl MulAssign of F for Vec2). -/
def mul_assign (a : Vec2 F) (rhs : F) : Vec2 F := ⟨a.x * rhs, a.y * rhs⟩

/-- Scalar division (impl Div of F for Vec2). -/
def div (a : Vec2 F) (rhs : F) : Vec2 F := ⟨a.x / rhs, a.y / rhs⟩

/-- In-place scalar division (impl DivAssign of F for Vec2). -/
def div_assign (a : Vec2 F) (rhs : F) : Vec2 F := ⟨a.x / rhs, a.y / rhs⟩

/-- Componentwise negation (impl Neg for Vec2). -/
def neg (a : Vec2 F) : Vec2 F := ⟨-a.x, -a.y⟩

/-- Dot product between two vectors. -/
def dot (a b : Vec2 F) : F := a.x * b.x + a.y * b.y

/-- Squared magnitude of the vector. -/
def sqrt_magnitude (a : Vec2 F) : F := a.x * a.x + a.y * a.y

/-- Linear interpolation: self + (other - self) * (1 - t). -/
def lerp (a b : Vec2 F) (t : F) : Vec2 F := add a (mul (sub b a) (1 - t))

end Vec2

namespace Vec3

/-- Componentwise addition (impl Add for Vec3). -/
def add (a b : Vec3 F) : Vec3 F := ⟨a.x + b.x, a.y + b.y, a.z + b.z⟩

/-- In-place addition modelled as a pure state transformer (impl AddAssign for Vec3). -/
def add_assign (a b : Vec3 F) : Vec3 F := ⟨a.x + b.x, a.y + b.y, a.z + b.z⟩

/-- Componentwise subtraction (impl Sub for Vec3). -/
def sub (a b : Vec3 F) : Vec3 F := ⟨a.x - b.x, a.y - b.y, a.z - b.z⟩

/-- In-place subtraction (impl SubAssign for Vec3). -/
def sub_assign (a b : Vec3 F) : Vec3 F := ⟨a.x - b.x, a.y - b.y, a.z - b.z⟩

/-- Scalar multiplication (impl Mul of F for Vec3). -/
def mul (a : Vec3 F) (rhs : F) : Vec3 F := ⟨a.x * rhs, a.y * rhs, a.z * rhs⟩

/-- In-place scalar multiplication (impl MulAssign of F for Vec3). -/
def mul_assign (a : Vec3 F) (rhs : F) : Vec3 F := ⟨a.x * rhs, a.y * rhs, a.z * rhs⟩

/-- Scalar division (impl Div of F for Vec3). -/
def div (a : Vec3 F) (rhs : F) : Vec3 F := ⟨a.x / rhs, a.y / rhs, a.z / rhs⟩

/-- In-place scalar division (impl DivAssign of F for Vec3). -/
def div_assign (a : Vec3 F) (rhs : F) : Vec3 F := ⟨a.x / rhs, a.y / rhs, a.z / rhs⟩

/-- Componentwise negation (impl Neg for Vec3). -/
def neg (a : Vec3 F) : Vec3 F := ⟨-a.x, -a.y, -a.z⟩

/-- The all-zero vector. -/
def zero : Vec3 F := ⟨0, 0, 0⟩

/-- Dot product between two vectors. -/
def dot (a b : Vec3 F) : F := a.x * b.x + a.y * b.y + a.z * b.z

/-- Squared magnitude of the vector. -/
def sqrt_magnitude (a : Vec3 F) : F := a.x * a.x + a.y * a.y + a.z * a.z

/-- Cross product between two vectors. -/
def cross (a b : Vec3 F) : Vec3 F :=
  ⟨a.y * b.z - a.z * b.y, a.z * b.x - a.x * b.z, a.x * b.y - a.y * b.x⟩

/-- Linear interpolation: self + (other - self) * (1 - t). -/
def lerp (a b : Vec3 F) (t : F) : Vec3 F := add a (mul (sub b a) (1 - t))

/-- Volume of the cuboid whose diagonal equals the vector. -/
def cuboid_volume (a : Vec3 F) : F := a.x * a.y * a.z

/-- Strict less-than of the derived lexicographic PartialOrd on Vec3,
specialised to a totally ordered scalar: compare x, then y, then z. -/
def lt (a b : Vec3 F) : Bool :=
  if a.x < b.x then true
  else if b.x < a.x then false
  else if a.y < b.y then true
  else if b.y < a.y then false
  else decide (a.z < b.z)

end Vec3

namespace Vec4

/-- Componentwise addition (impl Add for Vec4). -/
def add (a b : Vec4 F) : Vec4 F := ⟨a.x + b.x, a.y + b.y, a.z + b.z, a.w + b.w⟩

/-- In-place addition modelled as a pure state transformer (impl AddAssign for Vec4). -/
def add_assign (a b : Vec4 F) : Vec4 F := ⟨a.x + b.x, a.y + b.y, a.z + b.z, a.w + b.w⟩

/-- Componentwise subtraction (impl Sub for Vec4). -/
def sub (a b : Vec4 F) : Vec4 F := ⟨a.x - b.x, a.y - b.y, a.z - b.z, a.w - b.w⟩

/-- In-place subtraction (impl SubAssign for Vec4). -/
def sub_assign (a b : Vec4 F) : Vec4 F := ⟨a.x - b.x, a.y - b.y, a.z - b.z, a.w - b.w⟩

/-- Scalar multiplication (impl Mul of F for Vec4). -/
def mul (a : Vec4 F) (rhs : F) : Vec4 F := ⟨a.x * rhs, a.y * rhs, a.z * rhs, a.w * rhs⟩

/-- In-place scalar multiplication (impl MulAssign of F for Vec4). -/
def mul_assign (a : Vec4 F) (rhs : F) : Vec4 F := ⟨a.x * rhs, a.y * rhs, a.z * rhs, a.w * rhs⟩

/-- Scalar division (impl Div of F for Vec4). -/
def div (a : Vec4 F) (rhs : F) : Vec4 F := ⟨a.x / rhs, a.y / rhs, a.z / rhs, a.w / rhs⟩

/-- In-place scalar division (impl DivAssign of F for Vec4). -/
def div_assign (a : Vec4 F) (rhs : F) : Vec4 F := ⟨a.x / rhs, a.y / rhs, a.z / rhs, a.w / rhs⟩

/-- Dot product between two vectors. -/
def dot (a b : Vec4 F) : F := a.x * b.x + a.y * b.y + a.z * b.z + a.w * b.w

/-- Squared magnitude of the vector. -/
def sqrt_magnitude (a : Vec4 F) : F := a.x * a.x + a.y * a.y + a.z * a.z + a.w * a.w

/-- Linear interpolation: self + (other - self) * (1 - t). -/
def lerp (a b : Vec4 F) (t : F) : Vec4 F := add a (mul (sub b a) (1 - t))

end Vec4

namespace Quat

/-- Quaternion with v as vector part and 0 for scalar. -/
def new_vector (v : Vec3 F) : Quat F := ⟨v, 0⟩

/-- The zero quaternion. -/
def zero : Quat F := ⟨Vec3.zero, 0⟩

/-- The identity quaternion. -/
def identity : Quat F := ⟨Vec3.zero, 1⟩

/-- Conjugate of the quaternion. -/
def conjugate (q : Quat F) : Quat F := ⟨q.v.neg, q.w⟩

/-- Squared norm of the quaternion. -/
def sqrt_norm (q : Quat F) : F := q.v.sqrt_magnitude + q.w * q.w

/-- Scalar division (impl Div of F for Quat). -/
def div (q : Quat F) (rhs : F) : Quat F := ⟨q.v.div rhs, q.w / rhs⟩

/-- Reciprocal of the quaternion: conjugate / sqrt_norm. -/
def reciprocal (q : Quat F) : Quat F := q.conjugate.div q.sqrt_norm

/-- Hamilton product of two quaternions, componentwise from the source. -/
def product (a b : Quat F) : Quat F :=
  ⟨⟨a.w * b.v.x + a.v.x * b.w + a.v.y * b.v.z - a.v.z * b.v.y,
    a.w * b.v.y - a.v.x * b.v.z + a.v.y * b.w + a.v.z * b.v.x,
    a.w * b.v.z + a.v.x * b.v.y - a.v.y * b.v.x + a.v.z * b.w⟩,
   a.w * b.w - a.v.x * b.v.x - a.v.y * b.v.y - a.v.z * b.v.z⟩

/-- Combines two rotations, applying self first and then other: other.product(self). -/
def combine (a b : Quat F) : Quat F := b.product a

/-- Rotates vector v by the quaternion: (self * vector(v) * self.reciprocal()).v. -/
def rotate (q : Quat F) (v : Vec3 F) : Vec3 F :=
  ((q.product (new_vector v)).product q.reciprocal).v

/-- Componentwise addition (impl Add for Quat). -/
def add (a b : Quat F) : Quat F := ⟨a.v.add b.v, a.w + b.w⟩

/-- In-place addition (impl AddAssign for Quat). -/
def add_assign (a b : Quat F) : Quat F := ⟨a.v.add b.v, a.w + b.w⟩

/-- Componentwise subtraction (impl Sub for Quat). -/
def sub (a b : Quat F) : Quat F := ⟨a.v.sub b.v, a.w - b.w⟩

/-- In-place subtraction (impl SubAssign for Quat). -/
def sub_assign (a b : Quat F) : Quat F := ⟨a.v.sub b.v, a.w - b.w⟩

/-- Scalar multiplication (impl Mul of F for Quat). -/
def mul (a : Quat F) (rhs : F) : Quat F := ⟨a.v.mul rhs, a.w * rhs⟩

/-- In-place scalar multiplication (impl MulAssign of F for Quat). -/
def mul_assign (a : Quat F) (rhs : F) : Quat F := ⟨a.v.mul rhs, a.w * rhs⟩

/-- In-place scalar division (impl DivAssign of F for Quat). -/
def div_assign (a : Quat F) (rhs : F) : Quat F := ⟨a.v.div rhs, a.w / rhs⟩

end Quat

namespace Complex

/-- Componentwise addition (impl Add for Complex). -/
def add (a b : Complex F) : Complex F := ⟨a.real + b.real, a.imag + b.imag⟩

/-- In-place addition (impl AddAssign for Complex). -/
def add_assign (a b : Complex F) : Complex F := ⟨a.real + b.real, a.imag + b.imag⟩

/-- Componentwise subtraction (impl Sub for Complex). -/
def sub (a b : Complex F) : Complex F := ⟨a.real - b.real, a.imag - b.imag⟩

/-- In-place subtraction (impl SubAssign for Complex). -/
def sub_assign (a b : Complex F) : Complex F := ⟨a.real - b.real, a.imag - b.imag⟩

/-- Complex-by-complex multiplication: (ac - bd) + (ad + bc)i (impl Mul for Complex). -/
def mul (a b : Complex F) : Complex F :=
  ⟨a.real * b.real - a.imag * b.imag, a.real * b.imag + a.imag * b.real⟩

/-- In-place complex-by-complex multiplication (impl MulAssign for Complex),
translated statement by statement: the source updates self.real first and
then computes self.imag FROM THE ALREADY UPDATED self.real. -/
def mul_assign (a b : Complex F) : Complex F :=
  let r := a.real * b.real - a.imag * b.imag
  ⟨r, r * b.imag + a.imag * b.real⟩

/-- Scalar multiplication (impl Mul of F for Complex). -/
def muls (a : Complex F) (rhs : F) : Complex F := ⟨a.real * rhs, a.imag * rhs⟩

/-- In-place scalar multiplication (impl MulAssign of F for Complex). -/
def muls_assign (a : Complex F) (rhs : F) : Complex F := ⟨a.real * rhs, a.imag * rhs⟩

/-- Scalar division (impl Div of F for Complex). -/
def div (a : Complex F) (rhs : F) : Complex F := ⟨a.real / rhs, a.imag / rhs⟩

/-- In-place scalar division (impl DivAssign of F for Complex). -/
def div_assign (a : Complex F) (rhs : F) : Complex F := ⟨a.real / rhs, a.imag / rhs⟩

end Complex

/-- 3x4 matrix stored as three row 4-vectors (src/mat/mat3x4.rs). -/
@[ext]
structure Mat3x4 (F : Type) where
  r0 : Vec4 F
  r1 : Vec4 F
  r2 : Vec4 F
deriving DecidableEq

namespace Mat3x4

/-- Gets a row by constant index; panics (modelled as none) when the index is above 2. -/
def row (m : Mat3x4 F) (i : ℕ) : Option (Vec4 F) :=
  match i with
  | 0 => some m.r0
  | 1 => some m.r1
  | 2 => some m.r2
  | _ => none

/-- Sets a row by constant index; panics (modelled as none) when the index is above 2. -/
def set_row (m : Mat3x4 F) (i : ℕ) (r : Vec4 F) : Option (Mat3x4 F) :=
  match i with
  | 0 => some ⟨r, m.r1, m.r2⟩
  | 1 => some ⟨m.r0, r, m.r2⟩
  | 2 => some ⟨m.r0, m.r1, r⟩
  | _ => none

/-- Gets a column by constant index; panics (modelled as none) when the index is above 3. -/
def column (m : Mat3x4 F) (i : ℕ) : Option (Vec3 F) :=
  match i with
  | 0 => some ⟨m.r0.x, m.r1.x, m.r2.x⟩
  | 1 => some ⟨m.r0.y, m.r1.y, m.r2.y⟩
  | 2 => some ⟨m.r0.z, m.r1.z, m.r2.z⟩
  | 3 => some ⟨m.r0.w, m.r1.w, m.r2.w⟩
  | _ => none

/-- Sets a column by constant index; panics (modelled as none) when the index is above 3. -/
def set_column (m : Mat3x4 F) (i : ℕ) (c : Vec3 F) : Option (Mat3x4 F) :=
  match i with
  | 0 => some ⟨⟨c.x, m.r0.y, m.r0.z, m.r0.w⟩,
               ⟨c.y, m.r1.y, m.r1.z, m.r1.w⟩,
               ⟨c.z, m.r2.y, m.r2.z, m.r2.w⟩⟩
  | 1 => some ⟨⟨m.r0.x, c.x, m.r0.z, m.r0.w⟩,
               ⟨m.r1.x, c.y, m.r1.z, m.r1.w⟩,
               ⟨m.r2.x, c.z, m.r2.z, m.r2.w⟩⟩
  | 2 => some ⟨⟨m.r0.x, m.r0.y, c.x, m.r0.w⟩,
               ⟨m.r1.x, m.r1.y, c.y, m.r1.w⟩,
               ⟨m.r2.x, m.r2.y, c.z, m.r2.w⟩⟩
  | 3 => some ⟨⟨m.r0.x, m.r0.y, m.r0.z, c.x⟩,
               ⟨m.r1.x, m.r1.y, m.r1.z, c.y⟩,
               ⟨m.r2.x, m.r2.y, m.r2.z, c.z⟩⟩
  | _ => none

end Mat3x4

/-- Fixed 3D axis-aligned bounding box (src/aabb/d3.rs). -/
@[ext]
structure Aabb3 (F : Type) where
  min : Vec3 F
  max : Vec3 F
deriving DecidableEq

namespace Aabb3

/-- Checks if max is greater than min: the derived whole-vector order. -/
def is_right (bb : Aabb3 F) : Bool := Vec3.lt bb.min bb.max

/-- Checks if the vector is inside: min > vec and vec > max, whole-vector order. -/
def is_inside (bb : Aabb3 F) (vec : Vec3 F) : Bool :=
  Vec3.lt vec bb.min && Vec3.lt bb.max vec

/-- Checks if the vector is outside of the bounding box. -/
def is_outside (bb : Aabb3 F) (vec : Vec3 F) : Bool := !(bb.is_inside vec)

/-- Center of the bounding box: min.lerp(max, 1/(1+1)). -/
def center (bb : Aabb3 F) : Vec3 F := bb.min.lerp bb.max (1 / (1 + 1))

/-- The eight corners of the bounding box, in the order of the source array. -/
def corners (bb : Aabb3 F) : List (Vec3 F) :=
  let d := bb.max.sub bb.min
  [bb.min,
   bb.min.add ⟨d.x, 0, 0⟩,
   bb.min.add ⟨0, d.y, 0⟩,
   bb.min.add ⟨d.x, d.y, 0⟩,
   bb.min.add ⟨0, 0, d.z⟩,
   bb.min.add ⟨d.x, 0, d.z⟩,
   bb.min.add ⟨0, d.y, d.z⟩,
   bb.min.add ⟨d.x, d.y, d.z⟩]

/-- Volume of the bounding box. -/
def volume (bb : Aabb3 F) : F := (bb.max.sub bb.min).cuboid_volume

end Aabb3

/-- The generic Vector capability (trait Vector in src/vec/mod.rs): a
dimension-erasing contract of a size together with indexed get and set. -/
class Vector (F : Type) (V : Type) where
  SIZE : ℕ
  get : V → ℕ → F
  set : V → ℕ → F → V

/-- Modelled from the spec: src contains only the Vector trait declaration
and its generic Aabb consumer; the impl of Vector for Vec2 is absent from
src. Per the spec contract, SIZE is the dimension 2 and get and set read
and write the i-th component in x,y order. Out-of-range indices are left
unspecified by the spec; get falls back to x and set leaves the vector
unchanged there. -/
instance instVectorVec2 (F : Type) : Vector F (Vec2 F) where
  SIZE := 2
  get v i := match i with | 0 => v.x | _ => v.y
  set v i c := match i with | 0 => ⟨c, v.y⟩ | 1 => ⟨v.x, c⟩ | _ => v

/-- Modelled from the spec: the impl of Vector for Vec3 is absent from src.
SIZE is 3 and get and set address components in x,y,z order. -/
instance instVectorVec3 (F : Type) : Vector F (Vec3 F) where
  SIZE := 3
  get v i := match i with | 0 => v.x | 1 => v.y | _ => v.z
  set v i c := match i with
    | 0 => ⟨c, v.y, v.z⟩ | 1 => ⟨v.x, c, v.z⟩ | 2 => ⟨v.x, v.y, c⟩ | _ => v

/-- Modelled from the spec: the impl of Vector for Vec4 is absent from src.
SIZE is 4 and get and set address components in x,y,z,w order. -/
instance instVectorVec4 (F : Type) : Vector F (Vec4 F) where
  SIZE := 4
  get v i := match i with | 0 => v.x | 1 => v.y | 2 => v.z | _ => v.w
  set v i c := match i with
    | 0 => ⟨c, v.y, v.z, v.w⟩ | 1 => ⟨v.x, c, v.z, v.w⟩
    | 2 => ⟨v.x, v.y, c, v.w⟩ | 3 => ⟨v.x, v.y, v.z, c⟩ | _ => v

/-- Generic axis-aligned bounding box over the Vector capability (src/aabb.rs). -/
structure Aabb (F : Type) (V : Type) where
  min : V
  max : V

namespace Aabb

variable {V : Type} [Vector F V]

/-- Checks if max is bigger than min: the loop returns false on the first
axis with min above max, so it holds iff no axis violates the order. -/
def is_right (bb : Aabb F V) : Bool :=
  (List.range (Vector.SIZE F V)).all fun i =>
    !(decide (Vector.get bb.min i > (Vector.get bb.max i : F)))

/-- Checks if a point is inside: every axis satisfies min ≤ p and p ≤ max. -/
def is_inside (bb : Aabb F V) (v : V) : Bool :=
  (List.range (Vector.SIZE F V)).all fun i =>
    decide ((Vector.get bb.min i : F) ≤ Vector.get v i) &&
    decide ((Vector.get v i : F) ≤ Vector.get bb.max i)

/-- The inverted copy of the bounding box, swapping min and max. -/
def inverted (bb : Aabb F V) : Aabb F V := ⟨bb.max, bb.min⟩

end Aabb

/-! Real-valued operations. The scalar trait delegates sqrt, sin, cos and
acos to the host floating-point environment, which the spec treats as an
external, already-correct collaborator; they are modelled by the exact
real functions. -/

/-- Magnitude of a 2D vector: sqrt of the squared magnitude. -/
noncomputable def Vec2.magnitude (a : Vec2 ℝ) : ℝ := Real.sqrt a.sqrt_magnitude

/-- Normalized copy of a 2D vector: each component divided by the magnitude. -/
noncomputable def Vec2.normalized (a : Vec2 ℝ) : Vec2 ℝ :=
  ⟨a.x / a.magnitude, a.y / a.magnitude⟩

/-- Dot product of the normalized copies of two 2D vectors. -/
noncomputable def Vec2.dot_normalized (a b : Vec2 ℝ) : ℝ :=
  a.normalized.dot b.normalized

/-- Angle between two 2D vectors: acos of the normalized dot product. -/
noncomputable def Vec2.angle_to (a b : Vec2 ℝ) : ℝ :=
  Real.arccos (a.dot_normalized b)

/-- Magnitude of a 3D vector: sqrt of the squared magnitude. -/
noncomputable def Vec3.magnitude (a : Vec3 ℝ) : ℝ := Real.sqrt a.sqrt_magnitude

/-- Normalized copy of a 3D vector: each component divided by the magnitude. -/
noncomputable def Vec3.normalized (a : Vec3 ℝ) : Vec3 ℝ :=
  ⟨a.x / a.magnitude, a.y / a.magnitude, a.z / a.magnitude⟩

/-- Dot product of the normalized copies of two 3D vectors. -/
noncomputable def Vec3.dot_normalized (a b : Vec3 ℝ) : ℝ :=
  a.normalized.dot b.normalized

/-- Angle between two 3D vectors: acos of the normalized dot product. -/
noncomputable def Vec3.angle_to (a b : Vec3 ℝ) : ℝ :=
  Real.arccos (a.dot_normalized b)

/-- Magnitude of a 4D vector: sqrt of the squared magnitude. -/
noncomputable def Vec4.magnitude (a : Vec4 ℝ) : ℝ := Real.sqrt a.sqrt_magnitude

/-- Normalized copy of a 4D vector: each component divided by the magnitude. -/
noncomputable def Vec4.normalized (a : Vec4 ℝ) : Vec4 ℝ :=
  ⟨a.x / a.magnitude, a.y / a.magnitude, a.z / a.magnitude, a.w / a.magnitude⟩

/-- Dot product of the normalized copies of two 4D vectors. -/
noncomputable def Vec4.dot_normalized (a b : Vec4 ℝ) : ℝ :=
  a.normalized.dot b.normalized

/-- Angle between two 4D vectors: acos of the normalized dot product. -/
noncomputable def Vec4.angle_to (a b : Vec4 ℝ) : ℝ :=
  Real.arccos (a.dot_normalized b)

/-- Rotation of angle radians around axis: vector part is the normalized
axis scaled by sin of half the angle, scalar part is cos of half the angle. -/
noncomputable def Quat.new_axis_rotation (axis : Vec3 ℝ) (angle : ℝ) : Quat ℝ :=
  ⟨axis.normalized.mul (Real.sin (angle / 2)), Real.cos (angle / 2)⟩

/-! Claim theorems. -/

/-- C1: product(a,b) is the Hamilton product with the exact component
formulas of the claim, and the product is non-commutative: some pair of
quaternions yields different products in the two orders. -/
theorem C1_hamilton_product (F : Type) [LinearOrderedField F] :
    (∀ a b : Quat F, a.product b =
      ⟨⟨a.w * b.v.x + a.v.x * b.w + a.v.y * b.v.z - a.v.z * b.v.y,
        a.w * b.v.y - a.v.x * b.v.z + a.v.y * b.w + a.v.z * b.v.x,
        a.w * b.v.z + a.v.x * b.v.y - a.v.y * b.v.x + a.v.z * b.w⟩,
       a.w * b.w - a.v.x * b.v.x - a.v.y * b.v.y - a.v.z * b.v.z⟩) ∧
    (∃ a b : Quat F, a.product b ≠ b.product a) := by
  constructor
  · intro a b
    rfl
  · refine ⟨⟨⟨1, 0, 0⟩, 0⟩, ⟨⟨0, 1, 0⟩, 0⟩, fun h => ?_⟩
    have hz := congrArg (fun q : Quat F => q.v.z) h
    simp only [Quat.product] at hz
    norm_num at hz

/-- C5: for 2D, 3D and 4D vectors, lerp(a,b,t) = a + (b-a)*(1-t), and in
particular lerp(a,b,0) = b and lerp(a,b,1) = a, the reversed parametrization. -/
theorem C5_lerp_reversed (F : Type) [LinearOrderedField F] :
    (∀ (a b : Vec2 F) (t : F),
      a.lerp b t = a.add ((b.sub a).mul (1 - t)) ∧ a.lerp b 0 = b ∧ a.lerp b 1 = a) ∧
    (∀ (a b : Vec3 F) (t : F),
      a.lerp b t = a.add ((b.sub a).mul (1 - t)) ∧ a.lerp b 0 = b ∧ a.lerp b 1 = a) ∧
    (∀ (a b : Vec4 F) (t : F),
      a.lerp b t = a.add ((b.sub a).mul (1 - t)) ∧ a.lerp b 0 = b ∧ a.lerp b 1 = a) := by
  refine ⟨fun a b t => ⟨rfl, ?_, ?_⟩, fun a b t => ⟨rfl, ?_, ?_⟩,
    fun a b t => ⟨rfl, ?_, ?_⟩⟩ <;>
    ext <;>
    simp only [Vec2.lerp, Vec2.add, Vec2.sub, Vec2.mul,
      Vec3.lerp, Vec3.add, Vec3.sub, Vec3.mul,
      Vec4.lerp, Vec4.add, Vec4.sub, Vec4.mul] <;>
    ring

/-- C2: each fixed-dimension vector satisfies the spec-modelled Vector
capability with SIZE its dimension and get and set addressing components
in x,y,z,w order, and the generic Aabb instantiates at each of them, its
is_right computing the per-axis comparison over all SIZE axes. -/
theorem C2_vector_capability :
    (Vector.SIZE ℚ (Vec2 ℚ) = 2 ∧ Vector.SIZE ℚ (Vec3 ℚ) = 3 ∧
     Vector.SIZE ℚ (Vec4 ℚ) = 4) ∧
    (∀ v : Vec2 ℚ, (Vector.get v 0 : ℚ) = v.x ∧ (Vector.get v 1 : ℚ) = v.y) ∧
    (∀ (v : Vec2 ℚ) (c : ℚ),
      Vector.set v 0 c = Vec2.mk c v.y ∧ Vector.set v 1 c = Vec2.mk v.x c) ∧
    (∀ v : Vec3 ℚ, (Vector.get v 0 : ℚ) = v.x ∧ (Vector.get v 1 : ℚ) = v.y ∧
      (Vector.get v 2 : ℚ) = v.z) ∧
    (∀ (v : Vec3 ℚ) (c : ℚ),
      Vector.set v 0 c = Vec3.mk c v.y v.z ∧ Vector.set v 1 c = Vec3.mk v.x c v.z ∧
      Vector.set v 2 c = Vec3.mk v.x v.y c) ∧
    (∀ v : Vec4 ℚ, (Vector.get v 0 : ℚ) = v.x ∧ (Vector.get v 1 : ℚ) = v.y ∧
      (Vector.get v 2 : ℚ) = v.z ∧ (Vector.get v 3 : ℚ) = v.w) ∧
    (∀ (v : Vec4 ℚ) (c : ℚ),
      Vector.set v 0 c = Vec4.mk c v.y v.z v.w ∧
      Vector.set v 1 c = Vec4.mk v.x c v.z v.w ∧
      Vector.set v 2 c = Vec4.mk v.x v.y c v.w ∧
      Vector.set v 3 c = Vec4.mk v.x v.y v.z c) ∧
    (∀ bb : Aabb ℚ (Vec2 ℚ), bb.is_right = true ↔
      bb.min.x ≤ bb.max.x ∧ bb.min.y ≤ bb.max.y) ∧
    (∀ bb : Aabb ℚ (Vec3 ℚ), bb.is_right = true ↔
      bb.min.x ≤ bb.max.x ∧ bb.min.y ≤ bb.max.y ∧ bb.min.z ≤ bb.max.z) ∧
    (∀ bb : Aabb ℚ (Vec4 ℚ), bb.is_right = true ↔
      bb.min.x ≤ bb.max.x ∧ bb.min.y ≤ bb.max.y ∧ bb.min.z ≤ bb.max.z ∧
      bb.min.w ≤ bb.max.w) := by
  refine ⟨⟨rfl, rfl, rfl⟩, fun v => ⟨rfl, rfl⟩, fun v c => ⟨rfl, rfl⟩,
    fun v => ⟨rfl, rfl, rfl⟩, fun v c => ⟨rfl, rfl, rfl⟩,
    fun v => ⟨rfl, rfl, rfl, rfl⟩, fun v c => ⟨rfl, rfl, rfl, rfl⟩,
    fun bb => ?_, fun bb => ?_, fun bb => ?_⟩ <;>
    simp [Aabb.is_right, Vector.SIZE, Vector.get, instVectorVec2,
      instVectorVec3, instVectorVec4, List.range_succ, not_lt, and_assoc]

/-- The lexicographic strict order on Vec3 in terms of its components. -/
theorem vec3_lt_iff (a b : Vec3 F) :
    Vec3.lt a b = true ↔
      a.x < b.x ∨ (a.x = b.x ∧ (a.y < b.y ∨ (a.y = b.y ∧ a.z < b.z))) := by
  unfold Vec3.lt
  rcases lt_trichotomy a.x b.x with hx | hx | hx
  · simp [hx]
  · rcases lt_trichotomy a.y b.y with hy | hy | hy
    · simp [hx, hy]
    · simp [hx, hy]
    · simp [hx, lt_asymm hy, hy, hy.ne']
  · simp [lt_asymm hx, hx, hx.ne']

/-- The lexicographic order on Vec3 never relates a vector to itself. -/
theorem vec3_lt_irrefl (a : Vec3 F) : Vec3.lt a a = false := by
  simp [Bool.eq_false_iff, vec3_lt_iff]

/-- The lexicographic order on Vec3 is transitive. -/
theorem vec3_lt_trans {a b c : Vec3 F} (hab : Vec3.lt a b = true)
    (hbc : Vec3.lt b c = true) : Vec3.lt a c = true := by
  rw [vec3_lt_iff] at hab hbc ⊢
  rcases hab with h | ⟨e1, h⟩ <;> rcases hbc with h2 | ⟨e2, h2⟩
  · exact Or.inl (h.trans h2)
  · exact Or.inl (by rw [← e2]; exact h)
  · exact Or.inl (by rw [e1]; exact h2)
  · refine Or.inr ⟨e1.trans e2, ?_⟩
    rcases h with h | ⟨f1, h⟩ <;> rcases h2 with h2 | ⟨f2, h2⟩
    · exact Or.inl (h.trans h2)
    · exact Or.inl (by rw [← f2]; exact h)
    · exact Or.inl (by rw [f1]; exact h2)
    · exact Or.inr ⟨f1.trans f2, h.trans h2⟩

/-- C6: for the fixed 3D Aabb3, whenever is_right holds, is_inside rejects
every point and is_outside accepts it: the whole-vector comparison
min > p and p > max can never hold for a well-formed box. -/
theorem C6_fixed_aabb3_rejects_all (F : Type) [LinearOrderedField F] :
    ∀ (bb : Aabb3 F) (p : Vec3 F), bb.is_right = true →
      bb.is_inside p = false ∧ bb.is_outside p = true := by
  intro bb p hr
  rw [Aabb3.is_right] at hr
  have hin : bb.is_inside p = false := by
    rw [Bool.eq_false_iff]
    intro h
    rw [Aabb3.is_inside, Bool.and_eq_true] at h
    have hmm := vec3_lt_trans h.2 h.1
    have := vec3_lt_trans hmm hr
    rw [vec3_lt_irrefl] at this
    exact Bool.false_ne_true this
  exact ⟨hin, by rw [Aabb3.is_outside, hin]; rfl⟩

/-- Witness for C6 at the box with min (1,1,1), max (2,2,2) and the point
(0,0,0). -/
theorem C6_fixed_aabb3_rejects_all_witness :
    Aabb3.is_right (⟨⟨1, 1, 1⟩, ⟨2, 2, 2⟩⟩ : Aabb3 ℚ) = true ∧
    Aabb3.is_inside (⟨⟨1, 1, 1⟩, ⟨2, 2, 2⟩⟩ : Aabb3 ℚ) ⟨0, 0, 0⟩ = false ∧
    Aabb3.is_outside (⟨⟨1, 1, 1⟩, ⟨2, 2, 2⟩⟩ : Aabb3 ℚ) ⟨0, 0, 0⟩ = true := by
  have h : Aabb3.is_right (⟨⟨1, 1, 1⟩, ⟨2, 2, 2⟩⟩ : Aabb3 ℚ) = true := by
    norm_num [Aabb3.is_right, Vec3.lt]
  exact ⟨h, (C6_fixed_aabb3_rejects_all ℚ _ ⟨0, 0, 0⟩ h).1,
    (C6_fixed_aabb3_rejects_all ℚ _ ⟨0, 0, 0⟩ h).2⟩

/-- C7: the claim that every in-place operator agrees with its pure
counterpart fails for the complex-by-complex multiplication: at
x = y = (0,1), the in-place variant yields (-1,-1) because the imaginary
part is computed from the already updated real part, while the pure
product yields (-1,0). -/
theorem C7_complex_mul_assign_diverges :
    Complex.mul_assign (⟨0, 1⟩ : Complex ℚ) ⟨0, 1⟩ = ⟨-1, -1⟩ ∧
    Complex.mul (⟨0, 1⟩ : Complex ℚ) ⟨0, 1⟩ = ⟨-1, 0⟩ ∧
    Complex.mul_assign (⟨0, 1⟩ : Complex ℚ) ⟨0, 1⟩ ≠
      Complex.mul (⟨0, 1⟩ : Complex ℚ) ⟨0, 1⟩ := by
  refine ⟨?_, ?_, ?_⟩ <;>
    simp [Complex.mul_assign, Complex.mul, Complex.mk.injEq]

/-- C8: for the fixed 3D box with min (1,1,1) and max (2,2,2), is_right is
true, the volume is 1, the center is (3/2,3/2,3/2) and the corners are
exactly the 8 points with coordinates 1 or 2, x varying fastest, then y,
then z. -/
theorem C8_unit_box :
    Aabb3.is_right (⟨⟨1, 1, 1⟩, ⟨2, 2, 2⟩⟩ : Aabb3 ℚ) = true ∧
    Aabb3.volume (⟨⟨1, 1, 1⟩, ⟨2, 2, 2⟩⟩ : Aabb3 ℚ) = 1 ∧
    Aabb3.center (⟨⟨1, 1, 1⟩, ⟨2, 2, 2⟩⟩ : Aabb3 ℚ) = ⟨3/2, 3/2, 3/2⟩ ∧
    Aabb3.corners (⟨⟨1, 1, 1⟩, ⟨2, 2, 2⟩⟩ : Aabb3 ℚ) =
      [⟨1, 1, 1⟩, ⟨2, 1, 1⟩, ⟨1, 2, 1⟩, ⟨2, 2, 1⟩,
       ⟨1, 1, 2⟩, ⟨2, 1, 2⟩, ⟨1, 2, 2⟩, ⟨2, 2, 2⟩] := by
  refine ⟨?_, ?_, ?_, ?_⟩ <;>
    norm_num [Aabb3.is_right, Aabb3.volume, Aabb3.center, Aabb3.corners,
      Vec3.lt, Vec3.lerp, Vec3.add, Vec3.sub, Vec3.mul, Vec3.cuboid_volume,
      Vec3.mk.injEq]

/-- C10: the constant-indexed accessors of Mat3x4 panic (modelled as none)
exactly when the index is out of range, namely above 2 for rows and above 3
for columns, and for in-range indices they return or replace exactly the
selected row or column. -/
theorem C10_mat3x4_indexing (F : Type) [LinearOrderedField F] :
    ∀ (m : Mat3x4 F) (i : ℕ) (r : Vec4 F) (c : Vec3 F),
      (m.row i = none ↔ 2 < i) ∧
      (m.set_row i r = none ↔ 2 < i) ∧
      (m.column i = none ↔ 3 < i) ∧
      (m.set_column i c = none ↔ 3 < i) ∧
      (m.row 0 = some m.r0 ∧ m.row 1 = some m.r1 ∧ m.row 2 = some m.r2) ∧
      (m.set_row 0 r = some ⟨r, m.r1, m.r2⟩ ∧
       m.set_row 1 r = some ⟨m.r0, r, m.r2⟩ ∧
       m.set_row 2 r = some ⟨m.r0, m.r1, r⟩) ∧
      (m.column 0 = some ⟨m.r0.x, m.r1.x, m.r2.x⟩ ∧
       m.column 1 = some ⟨m.r0.y, m.r1.y, m.r2.y⟩ ∧
       m.column 2 = some ⟨m.r0.z, m.r1.z, m.r2.z⟩ ∧
       m.column 3 = some ⟨m.r0.w, m.r1.w, m.r2.w⟩) ∧
      (m.set_column 0 c = some ⟨⟨c.x, m.r0.y, m.r0.z, m.r0.w⟩,
                                ⟨c.y, m.r1.y, m.r1.z, m.r1.w⟩,
                                ⟨c.z, m.r2.y, m.r2.z, m.r2.w⟩⟩ ∧
       m.set_column 1 c = some ⟨⟨m.r0.x, c.x, m.r0.z, m.r0.w⟩,
                                ⟨m.r1.x, c.y, m.r1.z, m.r1.w⟩,
                                ⟨m.r2.x, c.z, m.r2.z, m.r2.w⟩⟩ ∧
       m.set_column 2 c = some ⟨⟨m.r0.x, m.r0.y, c.x, m.r0.w⟩,
                                ⟨m.r1.x, m.r1.y, c.y, m.r1.w⟩,
                                ⟨m.r2.x, m.r2.y, c.z, m.r2.w⟩⟩ ∧
       m.set_column 3 c = some ⟨⟨m.r0.x, m.r0.y, m.r0.z, c.x⟩,
                                ⟨m.r1.x, m.r1.y, m.r1.z, c.y⟩,
                                ⟨m.r2.x, m.r2.y, m.r2.z, c.z⟩⟩) := by
  intro m i r c
  refine ⟨?_, ?_, ?_, ?_, ⟨rfl, rfl, rfl⟩, ⟨rfl, rfl, rfl⟩,
    ⟨rfl, rfl, rfl, rfl⟩, ⟨rfl, rfl, rfl, rfl⟩⟩ <;>
    rcases i with _ | _ | _ | _ | i <;>
    simp [Mat3x4.row, Mat3x4.set_row, Mat3x4.column, Mat3x4.set_column]

/-- A nonzero 3D vector has positive squared magnitude. -/
theorem vec3_sqrt_magnitude_pos {v : Vec3 ℝ} (h : v ≠ Vec3.zero) :
    0 < v.sqrt_magnitude := by
  unfold Vec3.sqrt_magnitude
  rcases eq_or_ne v.x 0 with hx | hx
  · rcases eq_or_ne v.y 0 with hy | hy
    · rcases eq_or_ne v.z 0 with hz | hz
      · exact absurd (by ext <;> simp [Vec3.zero, hx, hy, hz]) h
      · nlinarith [mul_self_nonneg v.x, mul_self_nonneg v.y, mul_self_pos.mpr hz]
    · nlinarith [mul_self_nonneg v.x, mul_self_pos.mpr hy, mul_self_nonneg v.z]
  · nlinarith [mul_self_pos.mpr hx, mul_self_nonneg v.y, mul_self_nonneg v.z]

/-- The normalized copy of a nonzero 3D vector has squared magnitude one. -/
theorem vec3_normalized_sqrt_magnitude {v : Vec3 ℝ} (h : v ≠ Vec3.zero) :
    v.normalized.sqrt_magnitude = 1 := by
  have hs := vec3_sqrt_magnitude_pos h
  have hm : v.magnitude * v.magnitude = v.sqrt_magnitude := by
    unfold Vec3.magnitude
    exact Real.mul_self_sqrt hs.le
  have hm0 : v.magnitude ≠ 0 := by
    unfold Vec3.magnitude
    exact (Real.sqrt_pos.mpr hs).ne'
  have hq : v.normalized.sqrt_magnitude =
      v.sqrt_magnitude / (v.magnitude * v.magnitude) := by
    unfold Vec3.normalized Vec3.sqrt_magnitude
    field_simp
  rw [hq, hm, div_self hs.ne']

/-- C3: a unit quaternion preserves the magnitude of every rotated vector. -/
theorem C3_rotate_preserves_magnitude (q : Quat ℝ) (v : Vec3 ℝ)
    (h : q.sqrt_norm = 1) : (q.rotate v).magnitude = v.magnitude := by
  have hrec : q.reciprocal = q.conjugate := by
    rw [Quat.reciprocal, h]
    ext <;> simp [Quat.div, Vec3.div]
  have h' : q.v.x * q.v.x + q.v.y * q.v.y + q.v.z * q.v.z + q.w * q.w = 1 := by
    simpa [Quat.sqrt_norm, Vec3.sqrt_magnitude] using h
  have hsq : (q.rotate v).sqrt_magnitude = v.sqrt_magnitude := by
    rw [Quat.rotate, hrec]
    simp only [Quat.product, Quat.new_vector, Quat.conjugate, Vec3.neg,
      Vec3.sqrt_magnitude]
    linear_combination ((v.x * v.x + v.y * v.y + v.z * v.z) *
      (q.v.x * q.v.x + q.v.y * q.v.y + q.v.z * q.v.z + q.w * q.w + 1)) * h'
  unfold Vec3.magnitude
  rw [hsq]

/-- Witness for C3 at the identity quaternion and the vector (1,2,2). -/
theorem C3_rotate_preserves_magnitude_witness :
    Quat.sqrt_norm (⟨⟨0, 0, 0⟩, 1⟩ : Quat ℝ) = 1 ∧
    Vec3.magnitude (Quat.rotate (⟨⟨0, 0, 0⟩, 1⟩ : Quat ℝ) ⟨1, 2, 2⟩) =
      Vec3.magnitude ⟨1, 2, 2⟩ := by
  have h : Quat.sqrt_norm (⟨⟨0, 0, 0⟩, 1⟩ : Quat ℝ) = 1 := by
    norm_num [Quat.sqrt_norm, Vec3.sqrt_magnitude]
  exact ⟨h, C3_rotate_preserves_magnitude _ _ h⟩

/-- C4 fails as stated for the all-zero axis: there, combining the two
half rotations by pi yields the zero quaternion while the single rotation
by 2 pi has scalar part -1. -/
theorem C4_zero_axis_counterexample :
    Quat.combine (Quat.new_axis_rotation Vec3.zero Real.pi)
        (Quat.new_axis_rotation Vec3.zero Real.pi) ≠
      Quat.new_axis_rotation Vec3.zero (Real.pi + Real.pi) := by
  intro h
  have hnz : (Vec3.zero : Vec3 ℝ).normalized = Vec3.zero := by
    ext <;> simp [Vec3.normalized, Vec3.zero]
  have hw := congrArg Quat.w h
  rw [show Real.pi + Real.pi = 2 * Real.pi by ring] at hw
  simp only [Quat.combine, Quat.product, Quat.new_axis_rotation, hnz,
    Vec3.mul, Vec3.zero] at hw
  rw [show (2 : ℝ) * Real.pi / 2 = Real.pi by ring] at hw
  simp [Real.cos_pi_div_two, Real.cos_pi, Vec3.normalized, Vec3.zero] at hw

/-- C4 amended: for every NONZERO axis and all angles, combining the
rotations about the axis by t1 and then t2 equals the rotation about the
axis by t1 + t2. -/
theorem C4_same_axis_additive (axis : Vec3 ℝ) (t1 t2 : ℝ)
    (h : axis ≠ Vec3.zero) :
    Quat.combine (Quat.new_axis_rotation axis t1)
        (Quat.new_axis_rotation axis t2) =
      Quat.new_axis_rotation axis (t1 + t2) := by
  have hn : axis.normalized.sqrt_magnitude = 1 := vec3_normalized_sqrt_magnitude h
  rw [Vec3.sqrt_magnitude] at hn
  have hhalf : (t1 + t2) / 2 = t1 / 2 + t2 / 2 := by ring
  ext <;>
    simp only [Quat.combine, Quat.product, Quat.new_axis_rotation, Vec3.mul,
      hhalf, Real.sin_add, Real.cos_add]
  · ring
  · ring
  · ring
  · linear_combination (-(Real.sin (t1 / 2) * Real.sin (t2 / 2))) * hn

/-- Witness for the amended C4 at the axis (1,0,0) and both angles zero. -/
theorem C4_same_axis_additive_witness :
    (⟨1, 0, 0⟩ : Vec3 ℝ) ≠ Vec3.zero ∧
    Quat.combine (Quat.new_axis_rotation ⟨1, 0, 0⟩ 0)
        (Quat.new_axis_rotation ⟨1, 0, 0⟩ 0) =
      Quat.new_axis_rotation ⟨1, 0, 0⟩ (0 + 0) := by
  have h : (⟨1, 0, 0⟩ : Vec3 ℝ) ≠ Vec3.zero := by
    intro he
    have := congrArg Vec3.x he
    simp [Vec3.zero] at this
  exact ⟨h, C4_same_axis_additive ⟨1, 0, 0⟩ 0 0 h⟩

/-- C9: for nonzero vectors in each dimension, angle_to is acos applied
directly to the unclamped normalized dot product and lies in [0, pi]; at
(1,0) and (1,1) in 2D the angle is pi over 4. -/
theorem C9_angle_to_acos :
    (∀ a b : Vec2 ℝ, a ≠ ⟨0, 0⟩ → b ≠ ⟨0, 0⟩ →
      a.angle_to b = Real.arccos (a.dot_normalized b) ∧
      0 ≤ a.angle_to b ∧ a.angle_to b ≤ Real.pi) ∧
    (∀ a b : Vec3 ℝ, a ≠ ⟨0, 0, 0⟩ → b ≠ ⟨0, 0, 0⟩ →
      a.angle_to b = Real.arccos (a.dot_normalized b) ∧
      0 ≤ a.angle_to b ∧ a.angle_to b ≤ Real.pi) ∧
    (∀ a b : Vec4 ℝ, a ≠ ⟨0, 0, 0, 0⟩ → b ≠ ⟨0, 0, 0, 0⟩ →
      a.angle_to b = Real.arccos (a.dot_normalized b) ∧
      0 ≤ a.angle_to b ∧ a.angle_to b ≤ Real.pi) ∧
    Vec2.angle_to ⟨1, 0⟩ ⟨1, 1⟩ = Real.pi / 4 := by
  refine ⟨fun a b _ _ => ⟨rfl, Real.arccos_nonneg _, Real.arccos_le_pi _⟩,
    fun a b _ _ => ⟨rfl, Real.arccos_nonneg _, Real.arccos_le_pi _⟩,
    fun a b _ _ => ⟨rfl, Real.arccos_nonneg _, Real.arccos_le_pi _⟩, ?_⟩
  have h2 : Real.sqrt 2 * Real.sqrt 2 = 2 := Real.mul_self_sqrt (by norm_num)
  have h2pos : 0 < Real.sqrt 2 := Real.sqrt_pos.mpr (by norm_num)
  have hd : Vec2.dot_normalized ⟨1, 0⟩ ⟨1, 1⟩ = Real.sqrt 2 / 2 := by
    unfold Vec2.dot_normalized Vec2.normalized Vec2.dot Vec2.magnitude
      Vec2.sqrt_magnitude
    norm_num [Real.sqrt_one]
    field_simp
  rw [Vec2.angle_to, hd, ← Real.cos_pi_div_four,
    Real.arccos_cos (by positivity) (by linarith [Real.pi_pos])]

/-- Witness for C9 at the 2D vectors (1,0) and (0,1). -/
theorem C9_angle_to_acos_witness :
    (⟨1, 0⟩ : Vec2 ℝ) ≠ ⟨0, 0⟩ ∧ (⟨0, 1⟩ : Vec2 ℝ) ≠ ⟨0, 0⟩ ∧
    0 ≤ Vec2.angle_to ⟨1, 0⟩ ⟨0, 1⟩ ∧ Vec2.angle_to ⟨1, 0⟩ ⟨0, 1⟩ ≤ Real.pi := by
  have ha : (⟨1, 0⟩ : Vec2 ℝ) ≠ ⟨0, 0⟩ := by
    intro he
    have := congrArg Vec2.x he
    simp at this
  have hb : (⟨0, 1⟩ : Vec2 ℝ) ≠ ⟨0, 0⟩ := by
    intro he
    have := congrArg Vec2.y he
    simp at this
  exact ⟨ha, hb, (C9_angle_to_acos.1 ⟨1, 0⟩ ⟨0, 1⟩ ha hb).2.1,
    (C9_angle_to_acos.1 ⟨1, 0⟩ ⟨0, 1⟩ ha hb).2.2⟩

end Ewq
